import Mathlib

/-!
Shallow embedding of `mocap_processing/utils/conversions.py` (fairmotion).

Numeric arrays are modelled over the reals.  A 1-D numpy array of length
`n` is `Vec n := Fin n → ℝ`; an input that may be either a single vector
or a stack of vectors (the shapes accepted by
`_apply_fn_agnostic_to_vec_mat`) is the inductive `NdArray n`; a 3×3 or
4×4 matrix is `Fin m → Fin m → ℝ`.  Fallible code (`raise`) is embedded
with `Except`, and the ambient `warnings.warn` channel as an explicit
list of warning strings in the return value.

The `constants` module is not part of the source file; the spec treats it
as an external collaborator supplying the epsilon threshold and the
identity matrices, so those few definitions are modelled from the spec
and marked as such in their doc comments.
-/

open Real

abbrev Vec (n : ℕ) := Fin n → ℝ

/-- An array that is either a single length-`n` vector (`ndim == 1`) or a
stack of length-`n` vectors (`ndim == 2`), the two shapes handled by
`_apply_fn_agnostic_to_vec_mat`. -/
inductive NdArray (n : ℕ) where
  | vec : Vec n → NdArray n
  | mat : List (Vec n) → NdArray n

/-- Embeds `_apply_fn_agnostic_to_vec_mat(input, fn)`:
`output = np.array([input]) if input.ndim == 1 else input` (the wrapped
row list), `output = np.apply_along_axis(fn, 1, output)` (map `fn` over
the rows), `return output[0] if input.ndim == 1 else output`. -/
def apply_fn_agnostic_to_vec_mat {n m : ℕ} (input : NdArray n) (fn : Vec n → Vec m) :
    NdArray m :=
  let rows : List (Vec n) :=
    match input with
    | .vec v => [v]
    | .mat rs => rs
  let output : List (Vec m) := rows.map fn
  match input with
  | .vec _ => .vec output.headI
  | .mat _ => .mat output

/-- Modelled from the spec: the externally supplied epsilon threshold
(`constants.EPSILON`, the "epsilon" constant of the constants
collaborator); machine epsilon `2 ^ (-52)`. -/
noncomputable def EPSILON : ℝ := 2 ^ (-52 : ℤ)

/-- Euclidean norm of a 3-vector, `np.linalg.norm(a)` for shape `(3,)`. -/
noncomputable def norm3 (a : Vec 3) : ℝ :=
  Real.sqrt (a 0 ^ 2 + a 1 ^ 2 + a 2 ^ 2)

/-- Euclidean norm of a 4-vector, `np.linalg.norm(q)` for shape `(4,)`. -/
noncomputable def norm4 (q : Vec 4) : ℝ :=
  Real.sqrt (q 0 ^ 2 + q 1 ^ 2 + q 2 ^ 2 + q 3 ^ 2)

/-- Embeds `A2A(A)` as executed.  The body's first statement is
`return A`, so the nested `a2a` canonicalization (and its
`warnings.warn` call) below that line is unreachable: the function
returns its input unchanged and emits no warning.  The second component
is the list of warnings emitted during the call (always empty). -/
def A2A {n : ℕ} (A : NdArray n) : NdArray n × List String := (A, [])

section AxisAngleTheorems

/-- C1: the claim states that an axis-angle vector `a` with magnitude
`θ ∈ (π, 2π]` is canonicalized by `A2A` to `(−a/θ)·(2π−θ)`, whose
magnitude lies in `[0, π]`.  Counterexample: at `a = (3π/2, 0, 0)` the
magnitude `3π/2` lies in `(π, 2π]`, yet `A2A` returns `a` unchanged
(and not the claimed value `(−π/2, 0, 0)`), so the output magnitude is
still `3π/2 > π`: the early `return A` makes the canonalization code
dead, contradicting the function's own docstring. -/
theorem A2A_gimbal_counterexample :
    Real.pi < norm3 ![3 * Real.pi / 2, 0, 0] ∧
    norm3 ![3 * Real.pi / 2, 0, 0] ≤ 2 * Real.pi ∧
    A2A (NdArray.vec ![3 * Real.pi / 2, 0, 0]) =
      (NdArray.vec ![3 * Real.pi / 2, 0, 0], []) ∧
    (A2A (NdArray.vec ![3 * Real.pi / 2, 0, 0])).1 ≠
      NdArray.vec ![-(Real.pi / 2), 0, 0] := by
  have hnorm : norm3 ![3 * Real.pi / 2, 0, 0] = 3 * Real.pi / 2 := by
    have hpos : (0 : ℝ) ≤ 3 * Real.pi / 2 := by positivity
    simp [norm3]
    exact Real.sqrt_sq hpos
  have hpi : (0 : ℝ) < Real.pi := Real.pi_pos
  refine ⟨by rw [hnorm]; linarith, by rw [hnorm]; linarith, rfl, ?_⟩
  intro h
  have h0 : (![3 * Real.pi / 2, 0, 0] : Vec 3) 0 = (![-(Real.pi / 2), 0, 0] : Vec 3) 0 := by
    simpa [A2A] using congrFun (NdArray.vec.inj h) 0
  simp at h0
  linarith

/-- C2: the claim states that for magnitude `θ > 2π`, `A2A` emits a
warning and proceeds with the angle reduced modulo `2π`.
Counterexample: at `a = (7, 0, 0)` the magnitude `7` exceeds `2π`, yet
the executed code returns `a` unchanged and emits no warning: the early
`return A` makes the warning/reduction branch dead (and that dead branch
would itself compute `(θ % 2)·π`, not `θ mod 2π`, due to the precedence
of `angle%2*np.pi`). -/
theorem A2A_large_angle_counterexample :
    2 * Real.pi < norm3 ![7, 0, 0] ∧
    A2A (NdArray.vec ![7, 0, 0]) = (NdArray.vec ![7, 0, 0], []) ∧
    (A2A (NdArray.vec ![7, 0, 0])).2 = [] := by
  have hnorm : norm3 ![7, 0, 0] = 7 := by
    simp [norm3]
  have hpi : Real.pi < 3.15 := Real.pi_lt_d2
  exact ⟨by rw [hnorm]; linarith, rfl, rfl⟩

end AxisAngleTheorems

section BatchingTheorems

/-- C6: batching symmetry of `_apply_fn_agnostic_to_vec_mat`.  A 1-D
input returns `fn`'s unbatched result (no extra leading dimension); a
2-D input with leading axis of length `len` returns a 2-D result with
the same leading length, `fn` applied independently to each row. -/
theorem apply_fn_agnostic_batching_symmetry {n m : ℕ} (fn : Vec n → Vec m)
    (v : Vec n) (rows : List (Vec n)) :
    apply_fn_agnostic_to_vec_mat (NdArray.vec v) fn = NdArray.vec (fn v) ∧
    apply_fn_agnostic_to_vec_mat (NdArray.mat rows) fn = NdArray.mat (rows.map fn) ∧
    (rows.map fn).length = rows.length ∧
    ∀ i : ℕ, (rows.map fn).get? i = (rows.get? i).map fn := by
  refine ⟨rfl, rfl, rows.length_map fn, ?_⟩
  intro i
  simp [List.getElem?_map]

end BatchingTheorems

abbrev Mat3 := Fin 3 → Fin 3 → ℝ
abbrev Mat4 := Fin 4 → Fin 4 → ℝ

/-- Embeds `np.arctan2(y, x)` on real arguments (the four-quadrant
arctangent; the IEEE signed-zero refinements collapse since the model
has a single zero). -/
noncomputable def arctan2 (y x : ℝ) : ℝ :=
  if 0 < x then Real.arctan (y / x)
  else if x < 0 then
    (if 0 ≤ y then Real.arctan (y / x) + Real.pi else Real.arctan (y / x) - Real.pi)
  else
    (if 0 < y then Real.pi / 2 else if y < 0 then -(Real.pi / 2) else 0)

/-- Embeds `np.clip(x, lo, hi)`, equivalent to
`np.minimum(hi, np.maximum(x, lo))`. -/
noncomputable def clip (x lo hi : ℝ) : ℝ := min hi (max x lo)

/-- Embeds the per-sample computation of `R2E(R)` after the reshape to
`(-1, 3, 3)`: `e1, e2, e3` start at zero; rows with `R[0,2] == 1` get
`e1 = arctan2(R[0,1], R[0,2])` and `e2 = -π/2` (with `e3` left at its
zero initialization); rows with `R[0,2] == -1` get the same `e1` and
`e2 = π/2`; all other rows take the normal branch with the arcsin input
clipped to `[-1, 1]`.  The result row is `[e1, e2, e3]`. -/
noncomputable def r2e_single (R : Mat3) : Vec 3 :=
  if R 0 2 = 1 then
    ![arctan2 (R 0 1) (R 0 2), -(Real.pi / 2), 0]
  else if R 0 2 = -1 then
    ![arctan2 (R 0 1) (R 0 2), Real.pi / 2, 0]
  else
    let e2 := -Real.arcsin (clip (R 0 2) (-1) 1)
    ![arctan2 (R 1 2 / Real.cos e2) (R 2 2 / Real.cos e2), e2,
      arctan2 (R 0 1 / Real.cos e2) (R 0 0 / Real.cos e2)]

/-- Embeds `R2E(R)` over a batch: the source reshapes the leading shape
to a flat sample axis, computes per sample, and reshapes back; the flat
batch is modelled as a list of 3×3 matrices. -/
noncomputable def R2E (R : List Mat3) : List (Vec 3) := R.map r2e_single

/-- C4: gimbal-lock branches of `R2E`.  When `R[0,2] = 1` exactly, the
output row is `e1 = atan2(R[0,1], R[0,2]) = arctan(R[0,1])` (a
well-defined real, the model's rendering of "no NaN"), `e2 = -π/2`,
`e3 = 0`; when `R[0,2] = -1` exactly, `e2 = +π/2` with the same `e1`
formula and `e3 = 0`. -/
theorem R2E_gimbal_lock (R : Mat3) :
    (R 0 2 = 1 →
      r2e_single R = ![arctan2 (R 0 1) (R 0 2), -(Real.pi / 2), 0] ∧
      r2e_single R 0 = Real.arctan (R 0 1)) ∧
    (R 0 2 = -1 → r2e_single R = ![arctan2 (R 0 1) (R 0 2), Real.pi / 2, 0]) := by
  constructor
  · intro h
    have h1 : arctan2 (R 0 1) (R 0 2) = Real.arctan (R 0 1) := by
      rw [h, arctan2, if_pos one_pos, div_one]
    have h2 : r2e_single R = ![arctan2 (R 0 1) (R 0 2), -(Real.pi / 2), 0] := by
      rw [r2e_single, if_pos h]
    refine ⟨h2, ?_⟩
    rw [h2]
    exact h1
  · intro h
    have hne : R 0 2 ≠ 1 := by rw [h]; norm_num
    rw [r2e_single, if_neg hne, if_pos h]

/-- Gimbal-lock matrix with `R[0,2] = 1` used as the concrete witness
input for C4. -/
noncomputable def gimbalPlus : Mat3 := fun i j => if i = 0 ∧ j = 2 then 1 else 0

/-- Gimbal-lock matrix with `R[0,2] = -1` used as the concrete witness
input for C4. -/
noncomputable def gimbalMinus : Mat3 := fun i j => if i = 0 ∧ j = 2 then -1 else 0

/-- Witness for C4: both gimbal-lock branches evaluated at concrete
matrices. -/
theorem R2E_gimbal_lock_witness :
    r2e_single gimbalPlus = ![arctan2 0 1, -(Real.pi / 2), 0] ∧
    r2e_single gimbalPlus 0 = Real.arctan 0 ∧
    r2e_single gimbalMinus = ![arctan2 0 (-1), Real.pi / 2, 0] := by
  have h01p : gimbalPlus 0 1 = 0 := if_neg (by decide)
  have h02p : gimbalPlus 0 2 = 1 := if_pos (by decide)
  have h01m : gimbalMinus 0 1 = 0 := if_neg (by decide)
  have h02m : gimbalMinus 0 2 = -1 := if_pos (by decide)
  have hp := (R2E_gimbal_lock gimbalPlus).1 h02p
  have hm := (R2E_gimbal_lock gimbalMinus).2 h02m
  refine ⟨?_, ?_, ?_⟩
  · rw [hp.1, h01p, h02p]
  · rw [hp.2, h01p]
  · rw [hm, h01m, h02m]

/-- Modelled from the spec: `constants.eye_T()`, the identity transform
constant of the constants collaborator (4×4 identity, bottom row
`(0,0,0,1)`). -/
noncomputable def eye_T : Mat4 := fun i j => if i = j then 1 else 0

/-- Embeds `T2Rp(T)` for a single 4×4 transform:
`R = T[..., :3, :3]`, `p = T[..., :3, 3]`. -/
noncomputable def T2Rp (T : Mat4) : Mat3 × Vec 3 :=
  (fun i j => T i.castSucc j.castSucc, fun i => T i.castSucc 3)

/-- Embeds `Rp2T(R, p)` for a single rotation/position pair: the output
starts as `eye_T` (`T[...] = constants.eye_T()` after the zero
allocation), then `T[..., :3, :3] = R` and `T[..., :3, 3] = p`; the
bottom row keeps `eye_T`'s `(0,0,0,1)`. -/
noncomputable def Rp2T (R : Mat3) (p : Vec 3) : Mat4 :=
  fun i j =>
    if hi : (i : ℕ) < 3 then
      if hj : (j : ℕ) < 3 then R ⟨i, hi⟩ ⟨j, hj⟩
      else p ⟨i, hi⟩
    else eye_T i j

/-- C5: for a transform whose bottom row is `(0,0,0,1)`, `T2Rp` returns
exactly the `3×3` block and translation column, and `Rp2T` of that pair
reproduces `T` exactly. -/
theorem T2Rp_Rp2T_roundtrip (T : Mat4)
    (h0 : T 3 0 = 0) (h1 : T 3 1 = 0) (h2 : T 3 2 = 0) (h3 : T 3 3 = 1) :
    T2Rp T = (fun i j => T i.castSucc j.castSucc, fun i => T i.castSucc 3) ∧
    Rp2T (T2Rp T).1 (T2Rp T).2 = T := by
  refine ⟨rfl, ?_⟩
  funext i j
  fin_cases i <;> fin_cases j <;>
    first
      | rfl
      | (simp [Rp2T, T2Rp, eye_T, h0, h1, h2, h3])

/-- Witness for C5: the round trip evaluated at the identity transform,
whose bottom row is `(0,0,0,1)`. -/
theorem T2Rp_Rp2T_roundtrip_witness :
    Rp2T (T2Rp eye_T).1 (T2Rp eye_T).2 = eye_T :=
  (T2Rp_Rp2T_roundtrip eye_T (if_neg (by decide)) (if_neg (by decide))
    (if_neg (by decide)) (if_pos (by decide))).2

/-- Embeds the per-quaternion computation of `Q2E(Q, epsilon)` after the
reshape to `(-1, 4)`, order `(w, x, y, z)`:
`x = arctan2(2(q0q1 − q2q3), 1 − 2(q1² + q2²))`,
`y = arcsin(clip(2(q1q3 + q0q2), −1 + ε, 1 − ε))`,
`z = arctan2(2(q0q3 − q1q2), 1 − 2(q2² + q3²))`. -/
noncomputable def q2e_single (epsilon : ℝ) (q : Vec 4) : Vec 3 :=
  ![arctan2 (2 * (q 0 * q 1 - q 2 * q 3)) (1 - 2 * (q 1 * q 1 + q 2 * q 2)),
    Real.arcsin (clip (2 * (q 1 * q 3 + q 0 * q 2)) (-1 + epsilon) (1 - epsilon)),
    arctan2 (2 * (q 0 * q 3 - q 1 * q 2)) (1 - 2 * (q 2 * q 2 + q 3 * q 3))]

/-- Embeds `Q2E(Q, epsilon)` over a batch: the source reshapes the
leading shape to a flat sample axis (`Q.reshape(-1, 4)`), computes the
three angles per sample, stacks them, and reshapes back to the leading
shape with trailing axis 3; the flat batch is modelled as a list of
4-vectors. -/
noncomputable def Q2E (Q : List (Vec 4)) (epsilon : ℝ := 0) : List (Vec 3) :=
  Q.map (q2e_single epsilon)

/-- C7: `Q2E` output has one 3-vector per input quaternion (trailing
shape `(3,)` over the batch axis), and each output row satisfies the
three closed-form angle formulas with the arcsin input clipped to
`[−1 + ε, 1 − ε]`. -/
theorem Q2E_formulas (epsilon : ℝ) (Q : List (Vec 4)) :
    (Q2E Q epsilon).length = Q.length ∧
    Q2E Q epsilon = Q.map (fun q =>
      ![arctan2 (2 * (q 0 * q 1 - q 2 * q 3)) (1 - 2 * (q 1 * q 1 + q 2 * q 2)),
        Real.arcsin (clip (2 * (q 1 * q 3 + q 0 * q 2)) (-1 + epsilon) (1 - epsilon)),
        arctan2 (2 * (q 0 * q 3 - q 1 * q 2)) (1 - 2 * (q 2 * q 2 + q 3 * q 3))]) :=
  ⟨Q.length_map _, rfl⟩

/-- Embeds the inner `q2q(q)` of `Q2Q(Q, op, wxyz_in)`: starting from
`result = q.copy()`, apply in order `normalize` (raise on
`norm < constants.EPSILON`, else divide by the norm), `halfspace`
(scalar index 0 for wxyz input, 3 for xyzw input; negate the whole
vector if that component is negative), and `change_order`
(`result[[1,2,3,0]]` for wxyz input, `result[[3,0,1,2]]` for xyzw).
`op` is the collection of operation names tested with membership. -/
noncomputable def q2q_single (op : List String) (wxyz_in : Bool) (q : Vec 4) :
    Except String (Vec 4) :=
  let result := q
  let step1 : Except String (Vec 4) :=
    if "normalize" ∈ op then
      let norm := norm4 result
      if norm < EPSILON then Except.error "Invalid input with zero length"
      else Except.ok (fun i => result i / norm)
    else Except.ok result
  match step1 with
  | Except.error e => Except.error e
  | Except.ok result =>
    let result :=
      if "halfspace" ∈ op then
        let w_idx : Fin 4 := if wxyz_in then 0 else 3
        if result w_idx < 0 then (fun i => -result i) else result
      else result
    let result :=
      if "change_order" ∈ op then
        (if wxyz_in then (fun i => result (![1, 2, 3, 0] i))
         else (fun i => result (![3, 0, 1, 2] i)))
      else result
    Except.ok result

/-- Embeds `Q2Q(Q, op, wxyz_in)`: the inner `q2q` applied through
`_apply_fn_agnostic_to_vec_mat`; an exception raised on any row
propagates out of the whole call. -/
noncomputable def Q2Q (Q : NdArray 4) (op : List String) (wxyz_in : Bool := true) :
    Except String (NdArray 4) :=
  match Q with
  | .vec v => (q2q_single op wxyz_in v).map NdArray.vec
  | .mat rows => (rows.mapM (q2q_single op wxyz_in)).map NdArray.mat

/-- C3: with the `normalize` operation, `Q2Q` raises the domain error
exactly when the input quaternion's Euclidean norm is below
`constants.EPSILON`; otherwise it returns the input divided by its
norm. -/
theorem Q2Q_normalize_domain_error (q : Vec 4) :
    ((∃ e, Q2Q (NdArray.vec q) ["normalize"] true = Except.error e) ↔
      norm4 q < EPSILON) ∧
    (¬ norm4 q < EPSILON →
      Q2Q (NdArray.vec q) ["normalize"] true =
        Except.ok (NdArray.vec (fun i => q i / norm4 q))) := by
  constructor
  · constructor
    · rintro ⟨e, he⟩
      by_contra hn
      simp [Q2Q, q2q_single, Except.map, hn] at he
    · intro hn
      exact ⟨"Invalid input with zero length",
        by simp [Q2Q, q2q_single, Except.map, hn]⟩
  · intro hn
    simp [Q2Q, q2q_single, Except.map, hn]

/-- Witness for C3: normalizing `(2,0,0,0)` (norm `2`, not below the
threshold) yields `(1,0,0,0)`, and normalizing `(0,0,0,0)` (norm `0`,
below the threshold) raises the domain error. -/
theorem Q2Q_normalize_domain_error_witness :
    (¬ norm4 ![2, 0, 0, 0] < EPSILON ∧
      Q2Q (NdArray.vec ![2, 0, 0, 0]) ["normalize"] true =
        Except.ok (NdArray.vec ![1, 0, 0, 0])) ∧
    (norm4 ![0, 0, 0, 0] < EPSILON ∧
      ∃ e, Q2Q (NdArray.vec ![0, 0, 0, 0]) ["normalize"] true = Except.error e) := by
  have hnorm2 : norm4 ![2, 0, 0, 0] = 2 := by simp [norm4]
  have heps1 : EPSILON ≤ 1 := by
    rw [EPSILON]
    rw [show ((2 : ℝ) ^ (-52 : ℤ)) = ((2 : ℝ) ^ (52 : ℕ))⁻¹ by
      rw [zpow_neg]; norm_num]
    rw [inv_le_one_iff₀]
    right
    norm_num
  have hge : ¬ norm4 ![2, 0, 0, 0] < EPSILON := by
    rw [hnorm2]; intro h; linarith
  have hnorm0 : norm4 ![0, 0, 0, 0] = 0 := by simp [norm4]
  have hlt : norm4 ![0, 0, 0, 0] < EPSILON := by
    rw [hnorm0, EPSILON]; positivity
  refine ⟨⟨hge, ?_⟩, hlt, (Q2Q_normalize_domain_error ![0, 0, 0, 0]).1.mpr hlt⟩
  have h := (Q2Q_normalize_domain_error ![2, 0, 0, 0]).2 hge
  rw [h, hnorm2]
  congr 1
  congr 1
  funext i
  fin_cases i <;> norm_num

/-- C8: the `change_order` operation permutes between `(w,x,y,z)` and
`(x,y,z,w)`: for wxyz input it returns `(x,y,z,w)` (so `(1,2,3,4)`
becomes `(2,3,4,1)`), and for xyzw input it returns `(w,x,y,z)`. -/
theorem Q2Q_change_order_permutes (q : Vec 4) :
    Q2Q (NdArray.vec q) ["change_order"] true =
      Except.ok (NdArray.vec ![q 1, q 2, q 3, q 0]) ∧
    Q2Q (NdArray.vec q) ["change_order"] false =
      Except.ok (NdArray.vec ![q 3, q 0, q 1, q 2]) ∧
    Q2Q (NdArray.vec ![1, 2, 3, 4]) ["change_order"] true =
      Except.ok (NdArray.vec ![2, 3, 4, 1]) := by
  have h1 : ¬ ("normalize" : String) = "change_order" := by decide
  have h2 : ¬ ("halfspace" : String) = "change_order" := by decide
  have key : ∀ v : Vec 4,
      Q2Q (NdArray.vec v) ["change_order"] true =
        Except.ok (NdArray.vec ![v 1, v 2, v 3, v 0]) := by
    intro v
    simp only [Q2Q, q2q_single, Except.map, List.mem_singleton, h1, h2,
      if_false, if_true, ite_true, ite_false]
    congr 1
    congr 1
    funext i
    fin_cases i <;> rfl
  refine ⟨key q, ?_, ?_⟩
  · simp only [Q2Q, q2q_single, Except.map, List.mem_singleton, h1, h2,
      if_false, if_true, ite_true, ite_false, Bool.false_eq_true]
    congr 1
    congr 1
    funext i
    fin_cases i <;> rfl
  · rw [key ![1, 2, 3, 4]]
    norm_num [Matrix.cons_val_zero, Matrix.cons_val_one, Matrix.head_cons]

/-- C10: the `halfspace` operation locates the scalar component by the
declared order (index 0 for wxyz input, index 3 for xyzw input), negates
the whole vector exactly when that component is negative, and the
resulting scalar component is non-negative. -/
theorem Q2Q_halfspace_scalar_index (wxyz_in : Bool) (q : Vec 4) :
    Q2Q (NdArray.vec q) ["halfspace"] wxyz_in =
      Except.ok (NdArray.vec
        (if q (if wxyz_in then 0 else 3) < 0 then (fun i => -q i) else q)) ∧
    0 ≤ (if q (if wxyz_in then 0 else 3) < 0 then (fun i => -q i) else q)
        (if wxyz_in then 0 else 3) := by
  constructor
  · have h1 : ¬ ("normalize" : String) = "halfspace" := by decide
    have h2 : ¬ ("change_order" : String) = "halfspace" := by decide
    simp only [Q2Q, q2q_single, Except.map, List.mem_singleton, h1, h2,
      if_false, if_true, ite_true, ite_false]
  · by_cases h : q (if wxyz_in then 0 else 3) < 0
    · rw [if_pos h]
      linarith
    · rw [if_neg h]
      linarith [not_lt.mp h]

/-- Memory model for C9: the caller's array cell (`input`, the numpy
array passed to `q2q`) and the fresh buffer created by `result =
q.copy()` (`result`).  The in-place numpy operations `result /= norm`
and `result *= -1.0` write the `result` cell; fancy indexing
`result[[...]]` rebinds `result` to a new buffer.  A write to the
caller's array would have to update `input`. -/
structure QState where
  input : Vec 4
  result : Vec 4

/-- The `normalize` block of `q2q` on the memory cells: on success
`result /= norm` updates only the `result` cell; the zero-length raise
carries the cells at the moment of the raise. -/
noncomputable def q2q_normalize_step (op : List String) (s : QState) :
    Except (String × QState) QState :=
  if "normalize" ∈ op then
    if norm4 s.result < EPSILON then Except.error ("Invalid input with zero length", s)
    else Except.ok { s with result := fun i => s.result i / norm4 s.result }
  else Except.ok s

/-- The `halfspace` block of `q2q` on the memory cells: `result *= -1.0`
updates only the `result` cell. -/
noncomputable def q2q_halfspace_step (op : List String) (wxyz_in : Bool) (s : QState) :
    QState :=
  if "halfspace" ∈ op then
    if s.result (if wxyz_in then 0 else 3) < 0 then
      { s with result := fun i => -s.result i }
    else s
  else s

/-- The `change_order` block of `q2q` on the memory cells: rebinding
`result` to the gathered buffer touches only the `result` cell. -/
noncomputable def q2q_change_order_step (op : List String) (wxyz_in : Bool) (s : QState) :
    QState :=
  if "change_order" ∈ op then
    { s with result :=
        if wxyz_in then (fun i => s.result (![1, 2, 3, 0] i))
        else (fun i => s.result (![3, 0, 1, 2] i)) }
  else s

/-- The whole of `q2q(q)` on the memory cells: start from the caller's
array and the `q.copy()` buffer holding the same values, then run the
three operation blocks in order; a raise in `normalize` aborts the rest
and surfaces the cells at that point. -/
noncomputable def q2q_cells (op : List String) (wxyz_in : Bool) (q : Vec 4) :
    Except (String × QState) QState :=
  match q2q_normalize_step op { input := q, result := q } with
  | Except.error e => Except.error e
  | Except.ok s =>
      Except.ok (q2q_change_order_step op wxyz_in (q2q_halfspace_step op wxyz_in s))

/-- The memory cells at the end of a `q2q` call, whether it returned
normally or raised. -/
noncomputable def q2q_cells_final : Except (String × QState) QState → QState
  | Except.error e => e.2
  | Except.ok s => s

/-- C9: `Q2Q`'s inner `q2q` never mutates the caller's array: for every
input quaternion, every combination of operations, and either declared
order, the `input` cell after the call (normal return or raise) holds
exactly the values it held before it, because `result = q.copy()` gives
every write a separate buffer. -/
theorem Q2Q_never_mutates_input (op : List String) (wxyz_in : Bool) (q : Vec 4) :
    (q2q_cells_final (q2q_cells op wxyz_in q)).input = q := by
  have hnorm : ∀ s : QState,
      (q2q_cells_final (q2q_normalize_step op s)).input = s.input := by
    intro s
    rw [q2q_normalize_step]
    split_ifs <;> rfl
  have hhalf : ∀ s : QState, (q2q_halfspace_step op wxyz_in s).input = s.input := by
    intro s
    rw [q2q_halfspace_step]
    split_ifs <;> rfl
  have hchange : ∀ s : QState, (q2q_change_order_step op wxyz_in s).input = s.input := by
    intro s
    rw [q2q_change_order_step]
    split_ifs <;> rfl
  rw [q2q_cells]
  rcases hstep : q2q_normalize_step op { input := q, result := q } with e | s
  · have := hnorm { input := q, result := q }
    rw [hstep] at this
    simpa [q2q_cells_final] using this
  · have := hnorm { input := q, result := q }
    rw [hstep] at this
    simp only [q2q_cells_final, hchange, hhalf]
    simpa [q2q_cells_final] using this
